import Mathlib

/-!
Verification of the sleeper-dashboard player cache against its design notes.

The definitions below are a shallow embedding of the TypeScript sources
`src/playerFunctions.ts`, `src/LeagueContext.tsx`, `src/apiConfig.ts` and
`src/types.ts`.  JavaScript objects used as string-keyed records are embedded
as association lists written in key insertion order; IndexedDB object stores
are embedded the same way, with `putKeyed` giving the upsert semantics of
`IDBObjectStore.put`.  JavaScript string truthiness is made explicit
(`jsTruthyStr`, `jsOrString`, `jsOrNullString`), numbers holding integral
values are embedded as `Int`, and values produced by division are embedded as
`Rat`.  Fallible operations take their outcome (network response, store read
result) as an explicit argument.
-/

/-- The space character, written by code point to keep literals unambiguous. -/
def spaceChar : Char := Char.ofNat 32

/-- The apostrophe character used by the textual height encoding. -/
def apostropheChar : Char := Char.ofNat 39

/-- The double-quote character used by the textual height encoding. -/
def dquoteChar : Char := Char.ofNat 34

/-- JavaScript truthiness of an optional string: present and non-empty. -/
def jsTruthyStr : Option String → Bool
  | none => false
  | some s => s != ""

/-- Embeds the JavaScript idiom `x || d` for an optional string `x`. -/
def jsOrString (x : Option String) (d : String) : String :=
  match x with
  | none => d
  | some s => if s == "" then d else s

/-- Embeds the JavaScript idiom `x || null` for an optional string `x`. -/
def jsOrNullString (x : Option String) : Option String :=
  match x with
  | none => none
  | some s => if s == "" then none else some s

/-- Splits a character list at every separator (characters satisfying `p`),
keeping empty fields, exactly as JavaScript `String.prototype.split` does
with a single-character separator.  The result is always non-empty. -/
def splitChars (p : Char → Bool) : List Char → List (List Char)
  | [] => [[]]
  | c :: cs =>
    if p c then [] :: splitChars p cs
    else
      match splitChars p cs with
      | [] => [[c]]
      | t :: ts => (c :: t) :: ts

/-- Joins fields with a separator character, as JavaScript
`Array.prototype.join` does with a single-character separator. -/
def joinSep (sep : Char) : List (List Char) → List Char
  | [] => []
  | [t] => t
  | t :: ts => t ++ sep :: joinSep sep ts

/-- The fields of a display name split on the space character, embedding
the source's `name.split` with a one-space separator. -/
def nameParts (name : String) : List (List Char) :=
  splitChars (fun c => c == spaceChar) name.toList

/-- Embeds `isValidHeight` from `src/playerFunctions.ts`: the test of the
anchored pattern digits, apostrophe, digits, double quote. -/
def isValidHeight (height : String) : Bool :=
  let cs := height.toList
  let ds1 := cs.takeWhile Char.isDigit
  let rest1 := cs.dropWhile Char.isDigit
  match rest1 with
  | [] => false
  | c :: rest2 =>
    if c == apostropheChar then
      let ds2 := rest2.takeWhile Char.isDigit
      let rest3 := rest2.dropWhile Char.isDigit
      !ds1.isEmpty && !ds2.isEmpty && rest3 == [dquoteChar]
    else false

/-- KTC valuation numbers, from the `BackendPlayer.ktc` shape in
`src/playerFunctions.ts`. -/
structure KtcValues where
  value : Option Int
  rank : Option Int
  positionalRank : Option Int
  overallTier : Option Int
  positionalTier : Option Int
deriving DecidableEq

/-- The `ktc` sub-object of a raw backend entry. -/
structure KtcData where
  oneQBValues : Option KtcValues
  superflexValues : Option KtcValues
deriving DecidableEq

/-- A raw catalog entry as received from the backend.  The fields are the
union of the two raw-entry naming schemes observed across source versions:
the current scheme (`sleeper_player_id`, `playerName`, lower-case attribute
names) and the older scheme (`sleeper_id`, the JSON key with a space in it
embedded here as `player_Name`, capitalized `Team`, `Position`, `Age`).
Every field is optional because the JSON payload may omit any of them. -/
structure BackendPlayer where
  sleeper_player_id : Option String := none
  playerName : Option String := none
  team : Option String := none
  position : Option String := none
  age : Option Int := none
  birth_date : Option String := none
  height : Option String := none
  heightFeet : Option Int := none
  heightInches : Option Int := none
  weight : Option String := none
  college : Option String := none
  years_exp : Option Int := none
  number : Option Int := none
  depth_chart_position : Option Int := none
  status : Option String := none
  injury_status : Option String := none
  ktc : Option KtcData := none
  sleeper_id : Option String := none
  player_Name : Option String := none
  Team : Option String := none
  Position : Option String := none
  Age : Option Int := none
deriving DecidableEq

/-- The canonical player shape after normalization, from `src/types.ts`
restricted to the fields `fetchPlayers` actually constructs. -/
structure Player where
  player_id : String
  sleeper_player_id : Option String
  playerName : Option String
  first_name : String
  last_name : String
  team : String
  position : String
  age : Option Int
  birth_date : Option String
  height : Option String
  heightFeet : Option Int
  heightInches : Option Int
  weight : Option String
  years_exp : Option Int
  college : Option String
  fantasy_positions : List String
  status : String
  injury_status : Option String
  number : Option Int
  depth_chart_position : Option Int
  ktc : Option KtcData
deriving DecidableEq

/-- Upsert into a string-keyed store, embedding both JavaScript record
assignment `m[k] = v` and `IDBObjectStore.put`: an existing key keeps its
place and gets the new value, a new key is appended. -/
def putKeyed : List (String × α) → String → α → List (String × α)
  | [], k, v => [(k, v)]
  | e :: m, k, v => if e.1 == k then (k, v) :: m else e :: putKeyed m k v

/-- Keeps the first occurrence of every key, in order. -/
def dedupKeys : List String → List String
  | [] => []
  | a :: l => a :: (dedupKeys l).filter (fun b => !(b == a))

/-- The keys of a record in insertion order, embedding `Object.keys`. -/
def recordKeys (m : List (String × α)) : List String :=
  dedupKeys (m.map Prod.fst)

/-- Lookup in a string-keyed record, embedding `m[k]`. -/
def recordLookup (m : List (String × α)) (k : String) : Option α :=
  (m.find? (fun e => e.1 == k)).map Prod.snd

/-- The per-entry normalization performed inside `fetchPlayers` for an entry
that passed the identifier/name guard (lines 76-98 of
`src/playerFunctions.ts`). -/
def normalizePlayer (p : BackendPlayer) : Player :=
  let pid := p.sleeper_player_id.getD ""
  let name := p.playerName.getD ""
  { player_id := pid
    sleeper_player_id := p.sleeper_player_id
    playerName := p.playerName
    first_name := String.mk ((nameParts name).headD [])
    last_name := String.mk (joinSep spaceChar ((nameParts name).drop 1))
    team := jsOrString p.team ""
    position := jsOrString p.position ""
    age := p.age
    birth_date := p.birth_date
    height := p.height
    heightFeet := p.heightFeet
    heightInches := p.heightInches
    weight := p.weight
    years_exp := p.years_exp
    college := p.college
    fantasy_positions := [jsOrString p.position ""]
    status := jsOrString p.status "Active"
    injury_status := jsOrNullString p.injury_status
    number := p.number
    depth_chart_position := p.depth_chart_position
    ktc := p.ktc }

/-- The outcome of the single network request issued by `fetchPlayers`:
either the request itself failed, or a response arrived carrying the `ok`
flag, status information and a parsed body. -/
structure ApiBody where
  players : Option (List BackendPlayer)
deriving DecidableEq

/-- A network fetch outcome. -/
inductive FetchOutcome where
  | networkError : FetchOutcome
  | response (ok : Bool) (status : Nat) (statusText : String) (body : ApiBody)
deriving DecidableEq

/-- The ways `fetchPlayers` can fail, mirroring the thrown errors. -/
inductive FetchError where
  | network : FetchError
  | badStatus (status : Nat) (statusText : String) : FetchError
  | invalidFormat : FetchError
deriving DecidableEq

/-- Embeds `fetchPlayers` from `src/playerFunctions.ts`.  The body's
`players` field is `none` when the top-level players array is absent or not
an array.  Entries failing the truthiness guard on `sleeper_player_id` and
`playerName` are skipped; surviving entries are normalized and assigned into
the result record keyed by `sleeper_player_id`. -/
def fetchPlayers : FetchOutcome → Except FetchError (List (String × Player))
  | .networkError => .error .network
  | .response ok status statusText body =>
    if ok then
      match body.players with
      | none => .error .invalidFormat
      | some playersArray =>
        .ok (playersArray.foldl (fun acc p =>
          if jsTruthyStr p.sleeper_player_id && jsTruthyStr p.playerName then
            putKeyed acc (p.sleeper_player_id.getD "") (normalizePlayer p)
          else acc) [])
    else .error (.badStatus status statusText)

/-- The configured relevant-position set from `src/playerFunctions.ts`
(`RELEVANT_POSITIONS`), with DEF excluded by configuration. -/
def RELEVANT_POSITIONS : List String := ["QB", "RB", "WR", "TE", "K"]

/-- The schema version constant of `src/playerFunctions.ts`. -/
def PLAYER_DATA_VERSION : String := "1.0"

/-- The batch size constant of `src/playerFunctions.ts`. -/
def BATCH_SIZE : Nat := 500

/-- The height mutation inside `storePlayer`: a truthy height failing
`isValidHeight` is cleared to absent. -/
def adjustHeight (player : Player) : Player :=
  if jsTruthyStr player.height && !isValidHeight (player.height.getD "") then
    { player with height := none }
  else player

/-- Embeds `storePlayer` from `src/playerFunctions.ts` as the write decision
for one player: `some q` means exactly one put of the record `q` into the
players collection, `none` means no write.  The function cannot throw, which
the embedding reflects by being total. -/
def storePlayer (player : Player) : Option Player :=
  if player.player_id == "" then none
  else
    let player1 := adjustHeight player
    if player1.status == "Active" && player1.position != ""
        && RELEVANT_POSITIONS.contains player1.position then
      some player1
    else none

/-- The effect of `storePlayer` on the players collection: the put it issues,
if any, applied to the store state. -/
def storePlayerTx (s : List (String × Player)) (player : Player) :
    List (String × Player) :=
  match storePlayer player with
  | some q => putKeyed s q.player_id q
  | none => s

/-- The cache metadata record shape from `src/types.ts`. -/
structure MetadataRecord where
  lastUpdated : Int
  key : String
  version : String
deriving DecidableEq

/-- The persistent store state relevant to player ingestion: the players
collection keyed by `player_id` and the metadata collection keyed by `key`. -/
structure DBState where
  players : List (String × Player)
  metadata : List (String × MetadataRecord)
deriving DecidableEq

/-- Fuel-indexed helper for `toBatches`; the fuel bounds the recursion depth
and is always called with at least the list's length. -/
def toBatchesFuel : Nat → List String → List (List String)
  | _, [] => []
  | 0, _ :: _ => []
  | fuel + 1, a :: l =>
    ((a :: l).take BATCH_SIZE) :: toBatchesFuel fuel ((a :: l).drop BATCH_SIZE)

/-- The batching loop of `storePlayers`: the id list cut into slices of
`BATCH_SIZE`, in order. -/
def toBatches (l : List String) : List (List String) :=
  toBatchesFuel l.length l

/-- One batch of `storePlayers`: every id of the batch is resolved in the
input record, stamped with its key, and handed to `storePlayer` against the
shared transaction. -/
def storeBatch (playersData : List (String × Player))
    (s : List (String × Player)) (batch : List String) :
    List (String × Player) :=
  batch.foldl (fun s id =>
    match recordLookup playersData id with
    | some p => storePlayerTx s { p with player_id := id }
    | none => s) s

/-- Embeds `storePlayers` from `src/playerFunctions.ts`: processes the input
record's keys in batches against one players-collection transaction, then
puts the metadata record stamped with the current time and the schema
version. -/
def storePlayers (db : DBState) (playersData : List (String × Player))
    (now : Int) : DBState :=
  let playerIds := recordKeys playersData
  { players := (toBatches playerIds).foldl (storeBatch playersData) db.players
    metadata := putKeyed db.metadata "lastUpdate"
      { lastUpdated := now, key := "lastUpdate", version := PLAYER_DATA_VERSION } }

/-- A write event against the persistent store, used to state in which order
`storePlayers` touches the collections. -/
inductive DBEvent where
  | putPlayer (key : String) (record : Player) : DBEvent
  | putMetadata (key : String) (record : MetadataRecord) : DBEvent
deriving DecidableEq

/-- The put events one batch of `storePlayers` issues, in order. -/
def batchEvents (playersData : List (String × Player)) (batch : List String) :
    List DBEvent :=
  batch.filterMap (fun id =>
    (recordLookup playersData id).bind (fun p =>
      (storePlayer { p with player_id := id }).map (fun q =>
        DBEvent.putPlayer q.player_id q)))

/-- The full event trace of a `storePlayers` run: the player puts of every
batch in batch order, followed by the single metadata put. -/
def storePlayersEvents (playersData : List (String × Player)) (now : Int) :
    List DBEvent :=
  (toBatches (recordKeys playersData)).foldl
      (fun evs batch => evs ++ batchEvents playersData batch) []
    ++ [DBEvent.putMetadata "lastUpdate"
      { lastUpdated := now, key := "lastUpdate", version := PLAYER_DATA_VERSION }]

/-- The cache-hours threshold from `src/apiConfig.ts` (`PLAYER_CACHE_HOURS`). -/
def PLAYER_CACHE_HOURS : ℚ := 24

/-- The schema version constant of `src/apiConfig.ts`, destructured by
`LeagueContext.tsx` under the same name `PLAYER_DATA_VERSION`. -/
def API_PLAYER_DATA_VERSION : String := "1.0"

/-- Embeds `shouldRefreshPlayers` from `src/LeagueContext.tsx`.  The metadata
read outcome is explicit: `Except.error` models a failing store read (caught
by the source and turned into `true`), `Except.ok none` models an absent
metadata singleton. -/
def shouldRefreshPlayers (metadataRead : Except Unit (Option MetadataRecord))
    (now : Int) : Bool :=
  match metadataRead with
  | .error _ => true
  | .ok none => true
  | .ok (some metadata) =>
    let hoursElapsed : ℚ := ((now : ℚ) - (metadata.lastUpdated : ℚ)) / (1000 * 60 * 60)
    let isVersionMismatch : Bool := metadata.version != API_PLAYER_DATA_VERSION
    decide (hoursElapsed ≥ PLAYER_CACHE_HOURS) || isVersionMismatch

/-- Embeds `getPlayersFromDB` from `src/LeagueContext.tsx`.  The `getAll`
read outcome is explicit; a failing read, like the internally thrown
empty-collection error, is caught and yields the empty record. -/
def getPlayersFromDB (readResult : Except Unit (List Player)) :
    List (String × Player) :=
  match readResult with
  | .error _ => []
  | .ok players =>
    if players.length == 0 then []
    else
      players.foldl (fun m player =>
        if player.player_id != "" then putKeyed m player.player_id player
        else m) []

/-- Embeds the load step of `refreshData` (lines 226-229 of
`src/LeagueContext.tsx`): the mapping read back from the store, with an empty
mapping escalated to a load failure. -/
def refreshLoadPlayers (readResult : Except Unit (List Player)) :
    Except String (List (String × Player)) :=
  let playersMap := getPlayersFromDB readResult
  if (recordKeys playersMap).length == 0 then .error "Failed to load player data"
  else .ok playersMap

/-- Roster settings from `src/types.ts`. -/
structure RosterSettings where
  wins : Option Int
  losses : Option Int
  ties : Option Int
  fpts : Option Int
  fpts_decimal : Option Int
  fpts_against : Option Int
  fpts_against_decimal : Option Int
  ppts : Option Int
  ppts_decimal : Option Int
  waiver_position : Option Int
  waiver_budget_used : Option Int
  total_moves : Option Int
deriving DecidableEq

/-- A roster from `src/types.ts`. -/
structure Roster where
  roster_id : Int
  owner_id : String
  league_id : Option String
  starters : List String
  players : List String
  reserve : Option (List String)
  settings : RosterSettings
deriving DecidableEq

/-- User metadata from `src/types.ts`. -/
structure UserMetadata where
  team_name : Option String
deriving DecidableEq

/-- A league user from `src/types.ts`. -/
structure User where
  user_id : String
  username : Option String
  display_name : String
  avatar : Option String
  metadata : Option UserMetadata
  is_owner : Option Bool
deriving DecidableEq

/-- The derived per-team view model from `src/types.ts`. -/
structure TeamData where
  roster : Roster
  user : User
  players : List Player
  starters : List Player
  bench : List Player
deriving DecidableEq

/-- The per-roster mapping step of the `teamsData` memo in
`src/LeagueContext.tsx`: user resolution with the placeholder fallback,
roster and starter id resolution against the cached players record, and the
bench as the resolved roster minus the starter id set. -/
def mkTeamData (users : List User) (players : List (String × Player))
    (roster : Roster) : TeamData :=
  let user := (users.find? (fun u => u.user_id == roster.owner_id)).getD
    { user_id := roster.owner_id, username := some "Unknown User",
      display_name := "Unknown", avatar := none, metadata := none,
      is_owner := none }
  let playersList := roster.players.filterMap (fun id => recordLookup players id)
  let starters := roster.starters.filterMap (fun id => recordLookup players id)
  let bench := playersList.filter (fun p =>
    p.player_id != "" && !roster.starters.contains p.player_id)
  { roster := roster, user := user, players := playersList,
    starters := starters, bench := bench }

/-- A team's win count as the sort comparator reads it (`wins || 0`). -/
def teamWins (t : TeamData) : Int := t.roster.settings.wins.getD 0

/-- A team's total fantasy points as the sort comparator computes them:
integer points plus fractional points divided by one hundred. -/
def teamPoints (t : TeamData) : ℚ :=
  (t.roster.settings.fpts.getD 0 : ℚ) + (t.roster.settings.fpts_decimal.getD 0 : ℚ) / 100

/-- The sort comparator of `teamsData` read as a may-precede relation:
`teamLE a b` is true when the source comparator called on `(a, b)` returns a
non-positive number, so `a` is allowed to stay before `b`. -/
def teamLE (a b : TeamData) : Bool :=
  if teamWins b ≠ teamWins a then decide (teamWins b < teamWins a)
  else decide (teamPoints b ≤ teamPoints a)

/-- Embeds the `teamsData` memo of `src/LeagueContext.tsx`: empty inputs
short-circuit to the empty list; otherwise each roster is mapped to its team
view model and the list is sorted with the wins-then-points comparator by the
runtime's stable sort, embedded as a stable merge sort. -/
def teamsData (rosters : List Roster) (users : List User)
    (players : List (String × Player)) : List TeamData :=
  if rosters.length == 0 || users.length == 0
      || (recordKeys players).length == 0 then []
  else (rosters.map (mkTeamData users players)).mergeSort teamLE

/-- Modelled from the spec: tokens of a display name under the spec's words
"splitting a display name on whitespace" — the maximal whitespace-free runs,
empty fields discarded.  Used only to compare the spec's description of the
name split with the source's space-character split. -/
def specNameTokens (name : String) : List (List Char) :=
  (splitChars (fun c => c.isWhitespace) name.toList).filter (fun t => !t.isEmpty)

/-- Modelled from the spec: the first whitespace-separated token of a display
name. -/
def specFirstName (name : String) : String :=
  String.mk ((specNameTokens name).headD [])

/-- Modelled from the spec: the remaining whitespace-separated tokens joined
by a single space. -/
def specLastName (name : String) : String :=
  String.mk (joinSep spaceChar ((specNameTokens name).drop 1))

/-! ### Store primitive lemmas -/

theorem mem_putKeyed {m : List (String × α)} {k : String} {v : α} :
    ∀ e ∈ putKeyed m k v, e ∈ m ∨ e = (k, v) := by
  induction m with
  | nil => simp [putKeyed]
  | cons a m ih =>
    intro e he
    by_cases h : a.1 = k
    · simp [putKeyed, h] at he
      rcases he with h1 | h1
      · right; simp [h1]
      · left; simp [h1]
    · simp [putKeyed, h] at he
      rcases he with h1 | h1
      · left; simp [h1]
      · rcases ih e h1 with h2 | h2
        · left; simp [h2]
        · right; exact h2

theorem keys_putKeyed_mem {m : List (String × α)} {k : String} {v : α}
    (k' : String) :
    k' ∈ (putKeyed m k v).map Prod.fst ↔ k' ∈ m.map Prod.fst ∨ k' = k := by
  induction m with
  | nil => simp [putKeyed]
  | cons a m ih =>
    by_cases h : a.1 = k
    · simp [putKeyed, h]
      tauto
    · simp [putKeyed, h] at ih ⊢
      tauto

theorem lookup_putKeyed_self {m : List (String × α)} {k : String} {v : α} :
    recordLookup (putKeyed m k v) k = some v := by
  induction m with
  | nil => simp [putKeyed, recordLookup]
  | cons a m ih =>
    by_cases h : a.1 = k
    · simp [putKeyed, recordLookup, h]
    · simpa [putKeyed, recordLookup, h] using ih

theorem putKeyed_putKeyed_same {m : List (String × α)} {k : String} {v w : α} :
    putKeyed (putKeyed m k v) k w = putKeyed m k w := by
  induction m with
  | nil => simp [putKeyed]
  | cons a m ih =>
    by_cases h : a.1 = k
    · simp [putKeyed, h]
    · simp [putKeyed, h, ih]

theorem putKeyed_fixed {m : List (String × α)} {k : String} {v : α}
    (hmem : k ∈ m.map Prod.fst) (hval : ∀ e ∈ m, e.1 = k → e = (k, v)) :
    putKeyed m k v = m := by
  induction m with
  | nil => simp at hmem
  | cons a m ih =>
    by_cases h : a.1 = k
    · have := hval a (by simp) h
      simp [putKeyed, h, this]
    · have hmem' : k ∈ m.map Prod.fst := by
        rcases (List.mem_map).mp hmem with ⟨e, he, hek⟩
        rcases List.mem_cons.mp he with he1 | he1
        · exact absurd (he1 ▸ hek) h
        · exact List.mem_map.mpr ⟨e, he1, hek⟩
      have hval' : ∀ e ∈ m, e.1 = k → e = (k, v) := fun e he hek =>
        hval e (by simp [he]) hek
      simp [putKeyed, h, ih hmem' hval']

theorem mem_dedupKeys {l : List String} {k : String} :
    k ∈ dedupKeys l ↔ k ∈ l := by
  induction l with
  | nil => simp [dedupKeys]
  | cons a l ih =>
    simp only [dedupKeys, List.mem_cons, List.mem_filter]
    constructor
    · rintro (h | ⟨h, -⟩)
      · left; exact h
      · right; exact ih.mp h
    · rintro (h | h)
      · left; exact h
      · by_cases hk : k = a
        · left; exact hk
        · right; exact ⟨ih.mpr h, by simp [hk]⟩

theorem dedupKeys_eq_nil {l : List String} : dedupKeys l = [] ↔ l = [] := by
  cases l <;> simp [dedupKeys]

theorem recordKeys_eq_nil {m : List (String × α)} :
    recordKeys m = [] ↔ m = [] := by
  simp [recordKeys, dedupKeys_eq_nil]

theorem mem_recordKeys {m : List (String × α)} {k : String} :
    k ∈ recordKeys m ↔ k ∈ m.map Prod.fst := by
  simp [recordKeys, mem_dedupKeys]

/-! ### Fold lemmas for record-building loops -/

theorem foldl_putKeyed_keys {β : Type} {α : Type} (g : β → Bool)
    (key : β → String) (val : β → α) :
    ∀ (l : List β) (acc : List (String × α)) (k : String),
      k ∈ ((l.foldl (fun m b => if g b then putKeyed m (key b) (val b) else m)
          acc).map Prod.fst) ↔
        k ∈ acc.map Prod.fst ∨ ∃ b ∈ l, g b = true ∧ key b = k := by
  intro l
  induction l with
  | nil => simp
  | cons b l ih =>
    intro acc k
    simp only [List.foldl_cons]
    rw [ih]
    by_cases hg : g b = true
    · rw [if_pos hg, keys_putKeyed_mem]
      constructor
      · rintro ((h | h) | h)
        · left; exact h
        · right; exact ⟨b, List.mem_cons_self b l, hg, h.symm⟩
        · rcases h with ⟨b', hb', hgb', hk⟩
          right; exact ⟨b', List.mem_cons_of_mem b hb', hgb', hk⟩
      · rintro (h | ⟨b', hb', hgb', hk⟩)
        · left; left; exact h
        · rcases List.mem_cons.mp hb' with rfl | hb'
          · left; right; exact hk.symm
          · right; exact ⟨b', hb', hgb', hk⟩
    · rw [if_neg hg]
      constructor
      · rintro (h | ⟨b', hb', hgb', hk⟩)
        · left; exact h
        · right; exact ⟨b', List.mem_cons_of_mem b hb', hgb', hk⟩
      · rintro (h | ⟨b', hb', hgb', hk⟩)
        · left; exact h
        · rcases List.mem_cons.mp hb' with rfl | hb'
          · exact absurd hgb' hg
          · right; exact ⟨b', hb', hgb', hk⟩

theorem foldl_putKeyed_mem {β : Type} {α : Type} (g : β → Bool)
    (key : β → String) (val : β → α) :
    ∀ (l : List β) (acc : List (String × α)) (kq : String × α),
      kq ∈ l.foldl (fun m b => if g b then putKeyed m (key b) (val b) else m) acc →
        kq ∈ acc ∨ ∃ b ∈ l, g b = true ∧ kq = (key b, val b) := by
  intro l
  induction l with
  | nil => simp
  | cons b l ih =>
    intro acc kq h
    simp only [List.foldl_cons] at h
    rcases ih _ kq h with h1 | ⟨b', hb', hgb', hkq⟩
    · by_cases hg : g b
      · rw [if_pos hg] at h1
        rcases mem_putKeyed kq h1 with h2 | h2
        · left; exact h2
        · right; exact ⟨b, by simp, hg, h2⟩
      · rw [if_neg hg] at h1
        left; exact h1
    · right; exact ⟨b', by simp [hb'], hgb', hkq⟩

/-! ### Batching lemmas -/

theorem toBatchesFuel_foldl {α : Type} (f : α → String → α) :
    ∀ (fuel : Nat) (l : List String), l.length ≤ fuel → ∀ (s : α),
      (toBatchesFuel fuel l).foldl (fun s batch => batch.foldl f s) s
        = l.foldl f s := by
  intro fuel
  induction fuel with
  | zero =>
    intro l hl s
    cases l with
    | nil => simp [toBatchesFuel]
    | cons a l => simp at hl
  | succ fuel ih =>
    intro l hl s
    cases l with
    | nil => simp [toBatchesFuel]
    | cons a l =>
      have hlen : ((a :: l).drop BATCH_SIZE).length ≤ fuel := by
        simp only [List.length_drop, List.length_cons, BATCH_SIZE]
        simp only [List.length_cons] at hl
        omega
      calc (toBatchesFuel (fuel + 1) (a :: l)).foldl (fun s batch => batch.foldl f s) s
          = (toBatchesFuel fuel ((a :: l).drop BATCH_SIZE)).foldl
              (fun s batch => batch.foldl f s) (((a :: l).take BATCH_SIZE).foldl f s) := by
            simp [toBatchesFuel]
        _ = ((a :: l).drop BATCH_SIZE).foldl f (((a :: l).take BATCH_SIZE).foldl f s) :=
            ih _ hlen _
        _ = (((a :: l).take BATCH_SIZE) ++ ((a :: l).drop BATCH_SIZE)).foldl f s := by
            rw [List.foldl_append]
        _ = (a :: l).foldl f s := by rw [List.take_append_drop]

theorem toBatches_foldl {α : Type} (f : α → String → α) (l : List String) (s : α) :
    (toBatches l).foldl (fun s batch => batch.foldl f s) s = l.foldl f s :=
  toBatchesFuel_foldl f l.length l (Nat.le_refl _) s

/-! ### Structure of a single player write -/

/-- The per-id write step of `storePlayers`, the net effect of one iteration
of the batch map. -/
def storeStep (playersData : List (String × Player))
    (s : List (String × Player)) (id : String) : List (String × Player) :=
  match recordLookup playersData id with
  | some p => storePlayerTx s { p with player_id := id }
  | none => s

theorem storeBatch_eq_foldl (playersData : List (String × Player))
    (s : List (String × Player)) (batch : List String) :
    storeBatch playersData s batch = batch.foldl (storeStep playersData) s := by
  rfl

theorem storePlayers_players_eq (db : DBState)
    (playersData : List (String × Player)) (now : Int) :
    (storePlayers db playersData now).players
      = (recordKeys playersData).foldl (storeStep playersData) db.players := by
  show (toBatches (recordKeys playersData)).foldl (storeBatch playersData) db.players
      = (recordKeys playersData).foldl (storeStep playersData) db.players
  rw [show storeBatch playersData = fun s batch => batch.foldl (storeStep playersData) s
    from funext fun s => funext fun batch => storeBatch_eq_foldl playersData s batch]
  exact toBatches_foldl (storeStep playersData) _ _

theorem adjustHeight_player_id (p : Player) :
    (adjustHeight p).player_id = p.player_id := by
  unfold adjustHeight; split <;> rfl

theorem adjustHeight_status (p : Player) :
    (adjustHeight p).status = p.status := by
  unfold adjustHeight; split <;> rfl

theorem adjustHeight_position (p : Player) :
    (adjustHeight p).position = p.position := by
  unfold adjustHeight; split <;> rfl

theorem adjustHeight_height (p : Player) :
    (adjustHeight p).height =
      (match p.height with
        | none => none
        | some s => if s = "" then some "" else
            if isValidHeight s then some s else none) := by
  unfold adjustHeight jsTruthyStr
  cases hh : p.height with
  | none => simp [hh]
  | some s =>
    by_cases hs : s = ""
    · subst hs; simp [hh]
    · by_cases hv : isValidHeight s
      · simp [hh, hs, hv]
      · simp [hh, hs, hv]

theorem storePlayer_eq_some {p q : Player} (h : storePlayer p = some q) :
    q = adjustHeight p ∧ q.player_id = p.player_id ∧ q.status = p.status
      ∧ q.position = p.position
      ∧ p.status = "Active" ∧ p.position ∈ RELEVANT_POSITIONS := by
  simp only [storePlayer] at h
  split at h
  · exact absurd h (by simp)
  · split at h
    · rename_i hg
      have hq := (Option.some.inj h).symm
      simp only [Bool.and_eq_true, beq_iff_eq, bne_iff_ne, List.contains,
        List.elem_eq_mem, decide_eq_true_eq, adjustHeight_status,
        adjustHeight_position] at hg
      exact ⟨hq, hq ▸ adjustHeight_player_id p, hq ▸ adjustHeight_status p,
        hq ▸ adjustHeight_position p, hg.1.1, hg.2⟩
    · exact absurd h (by simp)

theorem storePlayer_none_of_filtered {p : Player}
    (h : ¬(p.status = "Active" ∧ p.position ∈ RELEVANT_POSITIONS)) :
    storePlayer p = none := by
  simp only [storePlayer]
  split
  · rfl
  · split
    · rename_i hg
      simp only [Bool.and_eq_true, beq_iff_eq, bne_iff_ne, List.contains,
        List.elem_eq_mem, decide_eq_true_eq, adjustHeight_status,
        adjustHeight_position] at hg
      exact absurd ⟨hg.1.1, hg.2⟩ h
    · rfl

/-! ### Idempotence machinery for storePlayers -/

/-- The record that a `storePlayers` run writes for a given id, if any:
the input's entry for that id, stamped with the id and passed through
`storePlayer`.  It depends only on the input mapping and the id. -/
def vOf (playersData : List (String × Player)) (id : String) : Option Player :=
  (recordLookup playersData id).bind (fun p => storePlayer { p with player_id := id })

theorem storeStep_eq (playersData : List (String × Player))
    (s : List (String × Player)) (id : String) :
    storeStep playersData s id =
      match vOf playersData id with
      | some q => putKeyed s id q
      | none => s := by
  unfold storeStep vOf storePlayerTx
  cases hp : recordLookup playersData id with
  | none => rfl
  | some p =>
    simp only [Option.some_bind]
    cases hq : storePlayer { p with player_id := id } with
    | none => rfl
    | some q =>
      have hid : q.player_id = id := (storePlayer_eq_some hq).2.1
      simp [hid]

/-- The first entry for a key is the given record. -/
def SatKey (s : List (String × Player)) (id : String) (q : Player) : Prop :=
  s.find? (fun e => e.1 == id) = some (id, q)

theorem putKeyed_of_satKey {s : List (String × Player)} {id : String}
    {q : Player} (h : SatKey s id q) : putKeyed s id q = s := by
  unfold SatKey at h
  induction s with
  | nil => simp at h
  | cons a m ih =>
    by_cases ha : a.1 = id
    · rw [List.find?_cons_of_pos _ (by simpa using ha)] at h
      have : a = (id, q) := Option.some.inj h
      simp [putKeyed, ha, this]
    · rw [List.find?_cons_of_neg _ (by simpa using ha)] at h
      simp [putKeyed, ha, ih h]

theorem satKey_putKeyed_self (s : List (String × Player)) (id : String)
    (q : Player) : SatKey (putKeyed s id q) id q := by
  unfold SatKey
  induction s with
  | nil => simp [putKeyed]
  | cons a m ih =>
    by_cases ha : a.1 = id
    · simp [putKeyed, ha]
    · simp only [putKeyed, beq_iff_eq, ha, if_false]
      rw [List.find?_cons_of_neg _ (by simpa using ha)]
      exact ih

theorem satKey_putKeyed_other {s : List (String × Player)} {id : String}
    {q : Player} (h : SatKey s id q) (k : String) (v : Player) (hk : k ≠ id) :
    SatKey (putKeyed s k v) id q := by
  unfold SatKey at h ⊢
  induction s with
  | nil => simp at h
  | cons a m ih =>
    by_cases ha : a.1 = k
    · simp only [putKeyed, beq_iff_eq, ha, if_true]
      rw [List.find?_cons_of_neg _ (by simpa using hk)]
      rwa [List.find?_cons_of_neg _ (by simp [ha ▸ hk])] at h
    · simp only [putKeyed, beq_iff_eq, ha, if_false]
      by_cases hai : a.1 = id
      · rw [List.find?_cons_of_pos _ (by simpa using hai)] at h ⊢
        exact h
      · rw [List.find?_cons_of_neg _ (by simpa using hai)] at h ⊢
        exact ih h

theorem satKey_storeStep (playersData : List (String × Player))
    {s : List (String × Player)} {id : String} {q : Player}
    (hv : vOf playersData id = some q)
    (hsat : SatKey s id q) (id2 : String) :
    SatKey (storeStep playersData s id2) id q := by
  rw [storeStep_eq]
  cases hv2 : vOf playersData id2 with
  | none => exact hsat
  | some q2 =>
    by_cases h : id2 = id
    · subst h
      rw [hv] at hv2
      have hq : q = q2 := Option.some.inj hv2
      subst hq
      exact satKey_putKeyed_self s id2 q
    · exact satKey_putKeyed_other hsat id2 q2 h

theorem satKey_foldl (playersData : List (String × Player))
    {id : String} {q : Player} (hv : vOf playersData id = some q) :
    ∀ (ids : List String) (s : List (String × Player)), SatKey s id q →
      SatKey (ids.foldl (storeStep playersData) s) id q := by
  intro ids
  induction ids with
  | nil => intro s h; exact h
  | cons id1 rest ih =>
    intro s h
    exact ih _ (satKey_storeStep playersData hv h id1)

theorem satKey_after (playersData : List (String × Player))
    {id : String} {q : Player} (hv : vOf playersData id = some q) :
    ∀ (ids : List String) (s : List (String × Player)), id ∈ ids →
      SatKey (ids.foldl (storeStep playersData) s) id q := by
  intro ids
  induction ids with
  | nil => intro s h; simp at h
  | cons id1 rest ih =>
    intro s hmem
    by_cases h1 : id1 = id
    · subst h1
      simp only [List.foldl_cons]
      have hstep : storeStep playersData s id1 = putKeyed s id1 q := by
        rw [storeStep_eq, hv]
      rw [hstep]
      exact satKey_foldl playersData hv rest _ (satKey_putKeyed_self s id1 q)
    · rcases List.mem_cons.mp hmem with h | h
      · exact absurd h.symm h1
      · exact ih _ h

theorem storeStep_fix (playersData : List (String × Player))
    {s : List (String × Player)} {id : String}
    (h : ∀ q, vOf playersData id = some q → SatKey s id q) :
    storeStep playersData s id = s := by
  rw [storeStep_eq]
  cases hv : vOf playersData id with
  | none => rfl
  | some q => exact putKeyed_of_satKey (h q hv)

theorem foldl_storeStep_fix (playersData : List (String × Player)) :
    ∀ (ids : List String) (s : List (String × Player)),
      (∀ id ∈ ids, storeStep playersData s id = s) →
      ids.foldl (storeStep playersData) s = s := by
  intro ids
  induction ids with
  | nil => intro s _; rfl
  | cons id1 rest ih =>
    intro s h
    simp only [List.foldl_cons]
    rw [h id1 (List.mem_cons_self id1 rest)]
    exact ih s (fun id hid => h id (List.mem_cons_of_mem id1 hid))

theorem dbState_ext {x y : DBState} (hp : x.players = y.players)
    (hm : x.metadata = y.metadata) : x = y := by
  cases x; cases y; simp_all

/-! ### The write-time filter invariant -/

/-- Every record in the players collection is an active player at a relevant
position. -/
def StoreInv (s : List (String × Player)) : Prop :=
  ∀ e ∈ s, e.2.status = "Active" ∧ e.2.position ∈ RELEVANT_POSITIONS

theorem storeInv_putKeyed {s : List (String × Player)} {k : String}
    {q : Player} (hs : StoreInv s)
    (hq : q.status = "Active" ∧ q.position ∈ RELEVANT_POSITIONS) :
    StoreInv (putKeyed s k q) := by
  intro e he
  rcases mem_putKeyed e he with h | h
  · exact hs e h
  · rw [h]; exact hq

theorem storeInv_storePlayerTx {s : List (String × Player)} (hs : StoreInv s)
    (p : Player) : StoreInv (storePlayerTx s p) := by
  unfold storePlayerTx
  cases hq : storePlayer p with
  | none => exact hs
  | some q =>
    obtain ⟨-, -, hqs, hqp, hps, hpp⟩ := storePlayer_eq_some hq
    exact storeInv_putKeyed hs ⟨hqs.trans hps, hqp ▸ hpp⟩

theorem storeInv_storeStep (playersData : List (String × Player))
    {s : List (String × Player)} (hs : StoreInv s) (id : String) :
    StoreInv (storeStep playersData s id) := by
  unfold storeStep
  cases recordLookup playersData id with
  | none => exact hs
  | some p => exact storeInv_storePlayerTx hs _

theorem storeInv_foldl (playersData : List (String × Player)) :
    ∀ (ids : List String) (s : List (String × Player)), StoreInv s →
      StoreInv (ids.foldl (storeStep playersData) s) := by
  intro ids
  induction ids with
  | nil => intro s hs; exact hs
  | cons id1 rest ih =>
    intro s hs
    exact ih _ (storeInv_storeStep playersData hs id1)

/-! ### Name splitting lemmas -/

theorem splitChars_ne_nil (p : Char → Bool) (cs : List Char) :
    splitChars p cs ≠ [] := by
  cases cs with
  | nil => simp [splitChars]
  | cons c cs =>
    by_cases hp : p c
    · simp [splitChars, hp]
    · simp only [splitChars, hp, Bool.false_eq_true, if_false]
      cases splitChars p cs <;> simp

theorem splitChars_cons_ex (p : Char → Bool) (cs : List Char) :
    ∃ t ts, splitChars p cs = t :: ts := by
  cases h : splitChars p cs with
  | nil => exact absurd h (splitChars_ne_nil p cs)
  | cons t ts => exact ⟨t, ts, rfl⟩

theorem splitChars_headD (p : Char → Bool) : ∀ cs : List Char,
    (splitChars p cs).headD [] = cs.takeWhile (fun c => !(p c)) := by
  intro cs
  induction cs with
  | nil => rfl
  | cons c cs ih =>
    by_cases hp : p c
    · simp [splitChars, hp, List.takeWhile_cons]
    · obtain ⟨t, ts, h⟩ := splitChars_cons_ex p cs
      simp only [splitChars, hp, Bool.false_eq_true, if_false, h,
        List.takeWhile_cons, Bool.not_false, if_true]
      rw [h] at ih
      simp only [List.headD_cons] at ih ⊢
      rw [ih]

theorem joinSep_splitChars (sep : Char) : ∀ cs : List Char,
    joinSep sep (splitChars (fun c => c == sep) cs) = cs := by
  intro cs
  induction cs with
  | nil => rfl
  | cons c cs ih =>
    by_cases hc : (c == sep) = true
    · have hceq : c = sep := by simpa using hc
      obtain ⟨t, ts, h⟩ := splitChars_cons_ex (fun c => c == sep) cs
      simp only [splitChars, hc, if_true, h]
      show sep :: joinSep sep (t :: ts) = c :: cs
      rw [← h, ih, hceq]
    · obtain ⟨t, ts, h⟩ := splitChars_cons_ex (fun c => c == sep) cs
      simp only [splitChars, hc, Bool.false_eq_true, if_false, h]
      cases ts with
      | nil =>
        show c :: t = c :: cs
        rw [h] at ih
        show c :: t = c :: cs
        simpa [joinSep] using congrArg (c :: ·) ih
      | cons u us =>
        show (c :: t) ++ sep :: joinSep sep (u :: us) = c :: cs
        rw [h] at ih
        have : t ++ sep :: joinSep sep (u :: us) = cs := ih
        simp only [List.cons_append]
        rw [this]

theorem joinSep_drop_splitChars (sep : Char) : ∀ cs : List Char,
    joinSep sep ((splitChars (fun c => c == sep) cs).drop 1)
      = (cs.dropWhile (fun c => !(c == sep))).drop 1 := by
  intro cs
  induction cs with
  | nil => rfl
  | cons c cs ih =>
    by_cases hc : (c == sep) = true
    · simp only [splitChars, hc, if_true, List.drop_succ_cons, List.drop_zero,
        List.dropWhile_cons, Bool.not_true, Bool.false_eq_true, if_false]
      exact joinSep_splitChars sep cs
    · obtain ⟨t, ts, h⟩ := splitChars_cons_ex (fun c => c == sep) cs
      simp only [splitChars, hc, Bool.false_eq_true, if_false, h,
        List.drop_succ_cons, List.drop_zero, List.dropWhile_cons,
        Bool.not_false, if_true]
      rw [h] at ih
      simpa using ih

/-! ### Order lemmas for the team comparator -/

theorem teamLE_iff (a b : TeamData) : teamLE a b = true ↔
    teamWins b < teamWins a
      ∨ (teamWins a = teamWins b ∧ teamPoints b ≤ teamPoints a) := by
  unfold teamLE
  by_cases h : teamWins b = teamWins a
  · rw [if_neg (not_not_intro h)]
    simp only [decide_eq_true_eq]
    constructor
    · intro hle; right; exact ⟨h.symm, hle⟩
    · rintro (hlt | ⟨-, hle⟩)
      · exact absurd hlt (by rw [h]; exact lt_irrefl _)
      · exact hle
  · rw [if_pos h]
    simp only [decide_eq_true_eq]
    constructor
    · intro hlt; left; exact hlt
    · rintro (hlt | ⟨heq, -⟩)
      · exact hlt
      · exact absurd heq.symm h

theorem teamLE_trans (a b c : TeamData) (hab : teamLE a b = true)
    (hbc : teamLE b c = true) : teamLE a c = true := by
  rw [teamLE_iff] at hab hbc ⊢
  rcases hab with h1 | ⟨h1, h1p⟩ <;> rcases hbc with h2 | ⟨h2, h2p⟩
  · left; exact lt_trans h2 h1
  · left; rw [← h2]; exact h1
  · left; rw [h1]; exact h2
  · right; exact ⟨h1.trans h2, le_trans h2p h1p⟩

theorem teamLE_total (a b : TeamData) : (teamLE a b || teamLE b a) = true := by
  rw [Bool.or_eq_true, teamLE_iff, teamLE_iff]
  rcases lt_trichotomy (teamWins a) (teamWins b) with h | h | h
  · right; left; exact h
  · rcases le_total (teamPoints b) (teamPoints a) with hp | hp
    · left; right; exact ⟨h, hp⟩
    · right; right; exact ⟨h.symm, hp⟩
  · left; left; exact h

/-! ### Event trace lemmas -/

theorem mem_foldl_append {α β : Type} (f : β → List α) :
    ∀ (L : List β) (acc : List α) (e : α),
      e ∈ L.foldl (fun evs b => evs ++ f b) acc →
        e ∈ acc ∨ ∃ b ∈ L, e ∈ f b := by
  intro L
  induction L with
  | nil => intro acc e h; left; exact h
  | cons b L ih =>
    intro acc e h
    rcases ih _ e h with h1 | ⟨b', hb', he⟩
    · rcases List.mem_append.mp h1 with h2 | h2
      · left; exact h2
      · right; exact ⟨b, List.mem_cons_self b L, h2⟩
    · right; exact ⟨b', List.mem_cons_of_mem b hb', he⟩

theorem batchEvents_shape (playersData : List (String × Player))
    (batch : List String) :
    ∀ e ∈ batchEvents playersData batch, ∃ k p, e = DBEvent.putPlayer k p := by
  intro e he
  unfold batchEvents at he
  rcases List.mem_filterMap.mp he with ⟨id, -, hbind⟩
  rcases Option.bind_eq_some.mp hbind with ⟨p, -, hmap⟩
  rcases Option.map_eq_some'.mp hmap with ⟨q, -, he2⟩
  exact ⟨q.player_id, q, he2.symm⟩

/-! ### Sample values used by witness and counterexample theorems -/

/-- The textual height 6 feet 2 inches, written by code points. -/
def sampleHeight : String :=
  String.mk [Char.ofNat 54, apostropheChar, Char.ofNat 50, dquoteChar]

/-- A storable player with a pattern-conforming textual height. -/
def validHeightPlayer : Player :=
  { player_id := "1", sleeper_player_id := some "1",
    playerName := some "Test Player", first_name := "Test",
    last_name := "Player", team := "KC", position := "QB", age := some 28,
    birth_date := none, height := some sampleHeight, heightFeet := none,
    heightInches := none, weight := none, years_exp := none, college := none,
    fantasy_positions := ["QB"], status := "Active", injury_status := none,
    number := none, depth_chart_position := none, ktc := none }

/-- A storable player whose height field holds the empty string. -/
def emptyHeightPlayer : Player :=
  { player_id := "1", sleeper_player_id := some "1",
    playerName := some "Test Player", first_name := "Test",
    last_name := "Player", team := "KC", position := "QB", age := none,
    birth_date := none, height := some "", heightFeet := none,
    heightInches := none, weight := none, years_exp := none, college := none,
    fantasy_positions := ["QB"], status := "Active", injury_status := none,
    number := none, depth_chart_position := none, ktc := none }

/-! ### Claim theorems -/

/-- C1: `storePlayer` writes a record only when the player's status is
`"Active"` and its position belongs to the relevant-position set; players
failing either condition produce no write; consequently both a single write
and a full `storePlayers` run preserve the store invariant that every
persisted record is an active player at a relevant position. -/
theorem c1_active_relevant_filter :
    (∀ p q : Player, storePlayer p = some q →
        (p.status = "Active" ∧ p.position ∈ RELEVANT_POSITIONS)
          ∧ q.status = "Active" ∧ q.position ∈ RELEVANT_POSITIONS) ∧
    (∀ p : Player, ¬(p.status = "Active" ∧ p.position ∈ RELEVANT_POSITIONS) →
        storePlayer p = none) ∧
    (∀ (s : List (String × Player)) (p : Player), StoreInv s →
        StoreInv (storePlayerTx s p)) ∧
    (∀ (db : DBState) (playersData : List (String × Player)) (now : Int),
        StoreInv db.players →
        StoreInv (storePlayers db playersData now).players) := by
  refine ⟨?_, ?_, ?_, ?_⟩
  · intro p q h
    obtain ⟨-, -, hqs, hqp, hps, hpp⟩ := storePlayer_eq_some h
    exact ⟨⟨hps, hpp⟩, hqs.trans hps, hqp ▸ hpp⟩
  · exact fun p h => storePlayer_none_of_filtered h
  · intro s p hs
    exact storeInv_storePlayerTx hs p
  · intro db playersData now hs
    rw [storePlayers_players_eq]
    exact storeInv_foldl playersData _ _ hs

/-- Witness for C1 at a concrete store and input. -/
theorem c1_active_relevant_filter_witness :
    StoreInv (storePlayers ⟨[], []⟩ [("1", validHeightPlayer)] 0).players :=
  c1_active_relevant_filter.2.2.2 ⟨[], []⟩ [("1", validHeightPlayer)] 0
    (fun e he => absurd he (List.not_mem_nil e))

/-- C2 counterexample: the player record with the present height string `""`
is written by `storePlayer`, yet the stored record's height field is the
present empty string, not absent, even though `""` does not match the
height pattern — the truthiness check skips validation for the empty
string. -/
theorem c2_counterexample :
    isValidHeight "" = false
      ∧ emptyHeightPlayer.height = some ""
      ∧ storePlayer emptyHeightPlayer = some emptyHeightPlayer
      ∧ (storePlayer emptyHeightPlayer).map Player.height ≠ some none := by
  refine ⟨rfl, rfl, by decide, by decide⟩

/-- C2 (amended): for every record that `storePlayer` writes, the stored
height is the input height unchanged when it matches the pattern, absent
when it is non-empty and fails the pattern, and the empty string is kept
as-is (present and empty); `storePlayer` is total, so it never fails. -/
theorem c2_height_validation (p q : Player) (h : storePlayer p = some q) :
    q.height = (match p.height with
      | none => none
      | some s => if s = "" then some ""
          else if isValidHeight s then some s else none) := by
  obtain ⟨hq, -⟩ := storePlayer_eq_some h
  rw [hq, adjustHeight_height]

/-- Witness for C2 at a concrete stored player. -/
theorem c2_height_validation_witness :
    validHeightPlayer.height = (match validHeightPlayer.height with
      | none => none
      | some s => if s = "" then some ""
          else if isValidHeight s then some s else none) :=
  c2_height_validation validHeightPlayer validHeightPlayer (by decide)

/-- C3: `shouldRefreshPlayers` returns true exactly when the metadata read
failed, the metadata singleton is absent, the elapsed hours since
`lastUpdated` reach the configured threshold, or the stored version differs
from the running code's version — and false in every other case. -/
theorem c3_should_refresh_characterization :
    ∀ (metadataRead : Except Unit (Option MetadataRecord)) (now : Int),
      shouldRefreshPlayers metadataRead now = true ↔
        metadataRead = .error () ∨ metadataRead = .ok none ∨
          ∃ m, metadataRead = .ok (some m) ∧
            (((now : ℚ) - (m.lastUpdated : ℚ)) / (1000 * 60 * 60)
                ≥ PLAYER_CACHE_HOURS
              ∨ m.version ≠ API_PLAYER_DATA_VERSION) := by
  intro md now
  cases md with
  | error e =>
    cases e
    simp [shouldRefreshPlayers]
  | ok o =>
    cases o with
    | none => simp [shouldRefreshPlayers]
    | some m =>
      simp only [shouldRefreshPlayers, Bool.or_eq_true, decide_eq_true_eq,
        bne_iff_ne]
      constructor
      · intro h
        right; right
        exact ⟨m, rfl, h⟩
      · rintro (h | h | ⟨m2, hm2, h⟩)
        · exact absurd h (by simp)
        · exact absurd h (by simp)
        · have hm : m2 = m := Option.some.inj (Except.ok.inj hm2).symm
          rw [← hm]
          exact h

/-- C4: `fetchPlayers` fails only on a network error, a non-success HTTP
status, or an absent/ill-shaped top-level players array; given a well-shaped
array it always succeeds, and its result contains a key exactly for the
entries carrying a truthy identifier and a truthy display name — malformed
entries are excluded without failing the call. -/
theorem c4_fetch_partial_success :
    fetchPlayers .networkError = .error .network ∧
    (∀ (status : Nat) (statusText : String) (body : ApiBody),
        fetchPlayers (.response false status statusText body)
          = .error (.badStatus status statusText)) ∧
    (∀ (status : Nat) (statusText : String),
        fetchPlayers (.response true status statusText { players := none })
          = .error .invalidFormat) ∧
    (∀ (status : Nat) (statusText : String) (arr : List BackendPlayer),
        ∃ r, fetchPlayers (.response true status statusText { players := some arr })
            = .ok r
          ∧ ∀ k, k ∈ recordKeys r ↔
              ∃ p ∈ arr, (jsTruthyStr p.sleeper_player_id
                  && jsTruthyStr p.playerName) = true
                ∧ p.sleeper_player_id = some k) := by
  refine ⟨rfl, fun _ _ _ => rfl, fun _ _ => rfl, ?_⟩
  intro status statusText arr
  refine ⟨_, rfl, ?_⟩
  intro k
  have h := foldl_putKeyed_keys
    (fun p : BackendPlayer =>
      jsTruthyStr p.sleeper_player_id && jsTruthyStr p.playerName)
    (fun p : BackendPlayer => p.sleeper_player_id.getD "")
    normalizePlayer arr [] k
  simp only [List.map_nil, List.not_mem_nil, false_or] at h
  rw [mem_recordKeys]
  constructor
  · intro hk
    rcases h.mp hk with ⟨p, hp, hg, hkey⟩
    refine ⟨p, hp, hg, ?_⟩
    cases hs : p.sleeper_player_id with
    | none => rw [hs] at hg; simp [jsTruthyStr] at hg
    | some s =>
      rw [hs] at hkey
      simp only [Option.getD_some] at hkey
      rw [hkey]
  · rintro ⟨p, hp, hg, hkey⟩
    exact h.mpr ⟨p, hp, hg, by rw [hkey]; rfl⟩

/-- C6: running `storePlayers` twice with the same input mapping leaves the
whole store state exactly as running it once does — each write is an upsert
with a value determined by the input alone, so the second run rewrites
identical records and creates or removes nothing. -/
theorem c6_store_players_idempotent (db : DBState)
    (playersData : List (String × Player)) (t1 t2 : Int) :
    storePlayers (storePlayers db playersData t1) playersData t2
      = storePlayers db playersData t2 := by
  apply dbState_ext
  · rw [storePlayers_players_eq, storePlayers_players_eq,
      storePlayers_players_eq]
    apply foldl_storeStep_fix
    intro id hid
    apply storeStep_fix
    intro q hv
    exact satKey_after playersData hv (recordKeys playersData) db.players hid
  · show putKeyed (putKeyed db.metadata "lastUpdate"
          { lastUpdated := t1, key := "lastUpdate",
            version := PLAYER_DATA_VERSION })
        "lastUpdate"
        { lastUpdated := t2, key := "lastUpdate",
          version := PLAYER_DATA_VERSION }
      = putKeyed db.metadata "lastUpdate"
        { lastUpdated := t2, key := "lastUpdate",
          version := PLAYER_DATA_VERSION }
    exact putKeyed_putKeyed_same

/-- C7: after a `storePlayers` run the metadata collection holds the
singleton keyed `"lastUpdate"` stamped with the current time and the running
schema version, and in the run's event trace the metadata put is the last
event, strictly after every player put. -/
theorem c7_metadata_stamp :
    ∀ (db : DBState) (playersData : List (String × Player)) (now : Int),
      recordLookup (storePlayers db playersData now).metadata "lastUpdate"
        = some { lastUpdated := now, key := "lastUpdate",
                 version := PLAYER_DATA_VERSION } ∧
      (storePlayersEvents playersData now).getLast?
        = some (DBEvent.putMetadata "lastUpdate"
            { lastUpdated := now, key := "lastUpdate",
              version := PLAYER_DATA_VERSION }) ∧
      ∀ e ∈ (storePlayersEvents playersData now).dropLast,
        ∃ k p, e = DBEvent.putPlayer k p := by
  intro db playersData now
  refine ⟨?_, ?_, ?_⟩
  · exact lookup_putKeyed_self
  · exact List.getLast?_concat _
  · unfold storePlayersEvents
    rw [List.dropLast_concat]
    intro e he
    rcases mem_foldl_append (batchEvents playersData) _ _ e he with h | ⟨b, -, hb⟩
    · simp at h
    · exact batchEvents_shape playersData b e hb

/-- Witness for C7's trace clause at a concrete input. -/
theorem c7_metadata_stamp_witness :
    ∃ k p, DBEvent.putPlayer "1" validHeightPlayer = DBEvent.putPlayer k p :=
  (c7_metadata_stamp ⟨[], []⟩ [("1", validHeightPlayer)] 0).2.2
    (DBEvent.putPlayer "1" validHeightPlayer) (by decide)

/-- Concrete roster settings for witness theorems. -/
def sampleSettings : RosterSettings where
  wins := some 10
  losses := some 3
  ties := some 0
  fpts := some 150
  fpts_decimal := some 25
  fpts_against := none
  fpts_against_decimal := none
  ppts := none
  ppts_decimal := none
  waiver_position := none
  waiver_budget_used := none
  total_moves := none

/-- A concrete roster for witness theorems. -/
def sampleRoster : Roster where
  roster_id := 1
  owner_id := "u1"
  league_id := none
  starters := ["1"]
  players := ["1"]
  reserve := none
  settings := sampleSettings

/-- A raw entry whose display name contains a tab character. -/
def tabNameEntry : BackendPlayer :=
  { sleeper_player_id := some "1", playerName := some "Jo\tBo" }

/-- A raw entry with a two-token display name. -/
def twoTokenEntry : BackendPlayer :=
  { sleeper_player_id := some "1", playerName := some "Patrick Mahomes" }

/-- A concrete user for witness theorems. -/
def sampleUser : User :=
  { user_id := "u1", username := some "tester", display_name := "Tester",
    avatar := none, metadata := none, is_owner := none }

/-- C5: on non-empty inputs, `teamsData` is a permutation of the per-roster
team list ordered so that wins descend and, within equal wins, total
fantasy points (integer points plus hundredths) descend; teams tied on both
wins and points keep their input order. -/
theorem c5_teams_sorted (rosters : List Roster) (users : List User)
    (players : List (String × Player))
    (hr : rosters ≠ []) (hu : users ≠ []) (hp : players ≠ []) :
    List.Perm (teamsData rosters users players)
        (rosters.map (mkTeamData users players)) ∧
    (teamsData rosters users players).Pairwise (fun a b =>
        teamWins b < teamWins a
          ∨ (teamWins a = teamWins b ∧ teamPoints b ≤ teamPoints a)) ∧
    (∀ a b : TeamData,
        [a, b].Sublist (rosters.map (mkTeamData users players)) →
        teamWins a = teamWins b → teamPoints a = teamPoints b →
        [a, b].Sublist (teamsData rosters users players)) := by
  have hguard : teamsData rosters users players
      = (rosters.map (mkTeamData users players)).mergeSort teamLE := by
    unfold teamsData
    rw [if_neg]
    intro hcon
    simp only [Bool.or_eq_true, beq_iff_eq] at hcon
    rcases hcon with (h | h) | h
    · exact hr (List.length_eq_zero.mp h)
    · exact hu (List.length_eq_zero.mp h)
    · exact hp (recordKeys_eq_nil.mp (List.length_eq_zero.mp h))
  refine ⟨?_, ?_, ?_⟩
  · rw [hguard]
    exact List.mergeSort_perm _ _
  · rw [hguard]
    have hs := List.sorted_mergeSort
      (fun a b c => teamLE_trans a b c) teamLE_total
      (rosters.map (mkTeamData users players))
    exact hs.imp (fun h => (teamLE_iff _ _).mp h)
  · intro a b hsub hw hpts
    rw [hguard]
    apply List.pair_sublist_mergeSort
      (fun a b c => teamLE_trans a b c) teamLE_total ?_ hsub
    rw [teamLE_iff]
    right
    exact ⟨hw, le_of_eq hpts.symm⟩

/-- Witness for C5 at a concrete league. -/
theorem c5_teams_sorted_witness :
    List.Perm (teamsData [sampleRoster] [sampleUser] [("1", validHeightPlayer)])
      ([sampleRoster].map (mkTeamData [sampleUser] [("1", validHeightPlayer)])) :=
  (c5_teams_sorted [sampleRoster] [sampleUser] [("1", validHeightPlayer)]
    (by simp) (by simp) (by simp)).1

/-- C8 counterexample: on a display name containing a tab, the code's
space-character split leaves the whole name in `first_name`, which is not
the first whitespace-separated token the claim describes. -/
theorem c8_counterexample :
    (normalizePlayer tabNameEntry).first_name = "Jo\tBo"
      ∧ specFirstName "Jo\tBo" = "Jo"
      ∧ (normalizePlayer tabNameEntry).first_name ≠ specFirstName "Jo\tBo" := by
  refine ⟨by decide, by decide, by decide⟩

/-- C8 (amended): the split is on the space character with empty fields
preserved: `first_name` is the text before the first space (the whole name
when it has none) and `last_name` the text after the first space (empty when
there is none); in particular a name without spaces yields an empty
`last_name`. -/
theorem c8_name_split (p : BackendPlayer) (name : String)
    (hname : p.playerName = some name) :
    (normalizePlayer p).first_name
        = String.mk (name.toList.takeWhile (fun c => !(c == spaceChar)))
      ∧ (normalizePlayer p).last_name
        = String.mk ((name.toList.dropWhile (fun c => !(c == spaceChar))).drop 1)
      ∧ ((∀ c ∈ name.toList, ¬(c = spaceChar)) →
          (normalizePlayer p).last_name = "") := by
  have h1 : (normalizePlayer p).first_name
      = String.mk ((nameParts name).headD []) := by
    simp [normalizePlayer, hname]
  have h2 : (normalizePlayer p).last_name
      = String.mk (joinSep spaceChar ((nameParts name).drop 1)) := by
    simp [normalizePlayer, hname]
  refine ⟨?_, ?_, ?_⟩
  · rw [h1, nameParts, splitChars_headD]
  · rw [h2, nameParts, joinSep_drop_splitChars]
  · intro hns
    rw [h2, nameParts, joinSep_drop_splitChars]
    have hd : name.toList.dropWhile (fun c => !(c == spaceChar)) = [] := by
      rw [List.dropWhile_eq_nil_iff]
      intro c hc
      simp [hns c hc]
    rw [hd]
    rfl

/-- Witness for C8 at a concrete two-token name. -/
theorem c8_name_split_witness :
    (normalizePlayer twoTokenEntry).first_name
      = String.mk ("Patrick Mahomes".toList.takeWhile
          (fun c => !(c == spaceChar))) :=
  (c8_name_split twoTokenEntry "Patrick Mahomes" rfl).1

/-- A raw entry carrying identifier and name only under the older naming
scheme. -/
def oldSchemeEntry : BackendPlayer :=
  { sleeper_id := some "123", player_Name := some "Patrick Mahomes" }

/-- C9 counterexample: a raw entry whose identifier sits under the older
generic field `sleeper_id` and whose display name sits under the older
combined `"Player Name"` key is skipped by the current `fetchPlayers`, which
reads only `sleeper_player_id` and `playerName`. -/
theorem c9_counterexample :
    fetchPlayers (.response true 200 "OK" { players := some [oldSchemeEntry] })
      = .ok [] := by
  rfl

/-- C9 (amended): each version of `fetchPlayers` handles exactly one naming
scheme; the current one includes an entry exactly when `sleeper_player_id`
and `playerName` are both truthy, and skips entries missing either even when
the older scheme's fields are present. -/
theorem c9_single_scheme (p : BackendPlayer) (status : Nat)
    (statusText : String) :
    (p.sleeper_player_id = none ∨ p.playerName = none →
        fetchPlayers (.response true status statusText { players := some [p] })
          = .ok []) ∧
    (jsTruthyStr p.sleeper_player_id = true → jsTruthyStr p.playerName = true →
        fetchPlayers (.response true status statusText { players := some [p] })
          = .ok [(p.sleeper_player_id.getD "", normalizePlayer p)]) := by
  constructor
  · intro h
    rcases h with h | h <;> simp [fetchPlayers, h, jsTruthyStr]
  · intro h1 h2
    simp [fetchPlayers, h1, h2, putKeyed]

/-- Witness for C9 at a concrete current-scheme entry. -/
theorem c9_single_scheme_witness :
    fetchPlayers (.response true 200 "OK" { players := some [twoTokenEntry] })
      = .ok [("1", normalizePlayer twoTokenEntry)] :=
  (c9_single_scheme twoTokenEntry 200 "OK").2 (by decide) (by decide)

/-- C10: `getPlayersFromDB` is total — a failed or empty read yields the
empty mapping, and a successful read yields the mapping keyed by
`player_id` restricted to records with a non-empty `player_id`; the load
step of `refreshData` then succeeds exactly when that mapping is
non-empty. -/
theorem c10_get_players_total :
    (∀ e : Unit, getPlayersFromDB (.error e) = []) ∧
    getPlayersFromDB (.ok []) = [] ∧
    (∀ ps : List Player,
        (∀ k, k ∈ recordKeys (getPlayersFromDB (.ok ps)) ↔
            ∃ p ∈ ps, p.player_id = k ∧ k ≠ "") ∧
        (∀ kq ∈ getPlayersFromDB (.ok ps),
            kq.2 ∈ ps ∧ kq.2.player_id = kq.1 ∧ kq.1 ≠ "")) ∧
    (∀ readResult : Except Unit (List Player),
        (refreshLoadPlayers readResult).isOk = true ↔
          getPlayersFromDB readResult ≠ []) := by
  refine ⟨fun e => rfl, rfl, ?_, ?_⟩
  · intro ps
    by_cases hps : ps = []
    · subst hps
      constructor
      · intro k
        simp [getPlayersFromDB, recordKeys, dedupKeys]
      · intro kq hkq
        simp [getPlayersFromDB] at hkq
    · have hlen : (ps.length == 0) = false := by
        simp [List.length_eq_zero, hps]
      constructor
      · intro k
        have h := foldl_putKeyed_keys
          (fun player : Player => player.player_id != "")
          (fun player : Player => player.player_id)
          (fun player : Player => player) ps [] k
        simp only [List.map_nil, List.not_mem_nil, false_or] at h
        have hshape : getPlayersFromDB (.ok ps)
            = ps.foldl (fun m player =>
                if (player.player_id != "") = true then
                  putKeyed m player.player_id player
                else m) [] := by
          simp [getPlayersFromDB, hlen]
        rw [hshape, mem_recordKeys]
        rw [h]
        constructor
        · rintro ⟨p, hp, hne, hk⟩
          exact ⟨p, hp, hk, by rw [← hk]; exact bne_iff_ne.mp hne⟩
        · rintro ⟨p, hp, hk, hne⟩
          exact ⟨p, hp, bne_iff_ne.mpr (hk ▸ hne), hk⟩
      · intro kq hkq
        have hshape : getPlayersFromDB (.ok ps)
            = ps.foldl (fun m player =>
                if (player.player_id != "") = true then
                  putKeyed m player.player_id player
                else m) [] := by
          simp [getPlayersFromDB, hlen]
        rw [hshape] at hkq
        rcases foldl_putKeyed_mem
          (fun player : Player => player.player_id != "")
          (fun player : Player => player.player_id)
          (fun player : Player => player) ps [] kq hkq with h | ⟨p, hp, hg, hkq2⟩
        · simp at h
        · rw [hkq2]
          exact ⟨hp, rfl, bne_iff_ne.mp hg⟩
  · intro readResult
    by_cases hm : getPlayersFromDB readResult = []
    · simp only [refreshLoadPlayers, hm]
      simp [recordKeys, dedupKeys, Except.isOk, Except.toBool]
    · have hne : recordKeys (getPlayersFromDB readResult) ≠ [] :=
        fun hc => hm (recordKeys_eq_nil.mp hc)
      have hlen : ((recordKeys (getPlayersFromDB readResult)).length == 0)
          = false := by
        simp [List.length_eq_zero, hne]
      simp only [refreshLoadPlayers, hlen]
      simp [hm, Except.isOk, Except.toBool]

/-- Witness for C10 at a concrete stored record. -/
theorem c10_get_players_total_witness :
    ("1", validHeightPlayer).2 ∈ [validHeightPlayer]
      ∧ ("1", validHeightPlayer).2.player_id = ("1", validHeightPlayer).1
      ∧ ("1", validHeightPlayer).1 ≠ "" :=
  (c10_get_players_total.2.2.1 [validHeightPlayer]).2
    ("1", validHeightPlayer) (by decide)
